import Mathlib

/-!
Shallow embedding of `btmonParser.py` (class `BtmonParser`): the device-record
merge logic `_addDeviceRecord`, the line-oriented block parser `parse`, and the
row construction and sorting of `report`.

Python values are modelled as follows: `str` is `String` manipulated through
its character list (Python string primitives such as `strip`, `upper` and the
regular expressions used by the source are implemented over `List Char`);
`float` timestamps are modelled as exact rationals `ℚ` (the source only ever
parses decimal literals and compares them); `int` is `Int`; a Python `dict`
is an insertion-ordered association list; a function that can raise returns
`Option` (`none` models an uncaught exception).
-/

namespace Btmon

/-! ### Python string primitives -/

/-- Whitespace trim on both ends, modelling Python `str.strip()` (ASCII
whitespace). -/
def stripChars (cs : List Char) : List Char :=
  ((cs.dropWhile Char.isWhitespace).reverse.dropWhile Char.isWhitespace).reverse

/-- Trailing-whitespace trim, modelling `str.rstrip()` as applied to each
input line. -/
def rstripChars (cs : List Char) : List Char :=
  (cs.reverse.dropWhile Char.isWhitespace).reverse

/-- Leading-whitespace trim, modelling `str.lstrip()`. -/
def lstripChars (cs : List Char) : List Char :=
  cs.dropWhile Char.isWhitespace

/-- Decimal digits to a natural number. -/
def charsToNat (cs : List Char) : Nat :=
  cs.foldl (fun n c => 10 * n + (c.toNat - 48)) 0

/-- Non-empty all-digit character list. -/
def allDigits (cs : List Char) : Bool :=
  !cs.isEmpty && cs.all Char.isDigit

/-- Exponent suffix of a Python float literal: either nothing is left (an
exponent of 0), or an `e`/`E` followed by an optionally signed digit string. -/
def expVal (cs : List Char) : Option Int :=
  match cs with
  | [] => some 0
  | c :: rest =>
    if c = 'e' ∨ c = 'E' then
      match rest with
      | '+' :: ds => if allDigits ds then some (charsToNat ds : Int) else none
      | '-' :: ds => if allDigits ds then some (-(charsToNat ds : Int)) else none
      | ds => if allDigits ds then some (charsToNat ds : Int) else none
    else none

/-- The exact rational value of a decimal literal with the given sign,
mantissa digit value, fraction length and decimal exponent:
`(-1)^neg * digits * 10^e / 10^fracLen`. -/
def decValue (neg : Bool) (digits : Nat) (fracLen : Nat) (e : Int) : ℚ :=
  let n : Int := if neg then -(digits : Int) else (digits : Int)
  match e with
  | Int.ofNat k => mkRat (n * 10 ^ k) (10 ^ fracLen)
  | Int.negSucc k => mkRat n (10 ^ fracLen * 10 ^ (k + 1))

/-- Unsigned mantissa (integer part, optional decimal point and fraction)
followed by an optional exponent. -/
def mantissaThen (neg : Bool) (cs : List Char) : Option ℚ :=
  let ip := cs.takeWhile Char.isDigit
  let rest := cs.dropWhile Char.isDigit
  match rest with
  | '.' :: rest2 =>
    let fp := rest2.takeWhile Char.isDigit
    let rest3 := rest2.dropWhile Char.isDigit
    if ip.isEmpty && fp.isEmpty then none
    else (expVal rest3).map (fun e => decValue neg (charsToNat (ip ++ fp)) fp.length e)
  | _ =>
    if ip.isEmpty then none
    else (expVal rest).map (fun e => decValue neg (charsToNat ip) 0 e)

/-- Model of Python `float(s)` on decimal and scientific literals, as an exact
rational; `none` models the `ValueError` raised on anything else (in
particular on the empty string). -/
def pyFloat (s : String) : Option ℚ :=
  match stripChars s.toList with
  | '+' :: cs => mantissaThen false cs
  | '-' :: cs => mantissaThen true cs
  | cs => mantissaThen false cs

/-- Model of Python `int(s)` on optionally signed decimal strings; `none`
models the `ValueError` raised on anything else. -/
def pyInt (s : String) : Option Int :=
  match stripChars s.toList with
  | '+' :: cs => if allDigits cs then some (charsToNat cs : Int) else none
  | '-' :: cs => if allDigits cs then some (-(charsToNat cs : Int)) else none
  | cs => if allDigits cs then some (charsToNat cs : Int) else none

/-! ### Device records and the device map (`self.devices`) -/

/-- One merged device record, the value stored in `self.devices`. -/
structure Device where
  firstTime : ℚ
  lastTime : ℚ
  name : String
  manufacturer : String
  rssi : Int
deriving DecidableEq, Repr

/-- The aggregator's `self.devices` dictionary: an insertion-ordered
association list from normalized MAC to device record. -/
abbrev DevMap := List (String × Device)

/-- Dictionary lookup: first entry with the given key. -/
def findDev : DevMap → String → Option Device
  | [], _ => none
  | e :: rest, key => if e.fst = key then some e.snd else findDev rest key

/-- Dictionary value update in place (key set and order unchanged). -/
def setDev (m : DevMap) (key : String) (d : Device) : DevMap :=
  m.map (fun e => if e.fst = key then (e.fst, d) else e)

/-- `mac.strip().upper()` (source line 33). -/
def normMac (mac : String) : String :=
  ((stripChars mac.toList).map Char.toUpper).asString

/-- `int(rssi) if rssi else 5000` (source line 37): an empty rssi string maps
to the sentinel 5000, a non-empty one is parsed as a signed integer. -/
def rssiVal (rssi : String) : Option Int :=
  if rssi ≠ "" then pyInt rssi else some 5000

/-- Source lines 39-42: `if timestamp < firstTime: firstTime = timestamp
elif timestamp > lastTime: lastTime = timestamp`. -/
def updTimes (d : Device) (ts : ℚ) : Device :=
  if ts < d.firstTime then { d with firstTime := ts }
  else if ts > d.lastTime then { d with lastTime := ts }
  else d

/-- Source lines 43-44: set the name if the stored one is falsy (empty). -/
def updName (d : Device) (name : String) : Device :=
  if d.name = "" then { d with name := name } else d

/-- Source lines 45-46: set the manufacturer if the stored one is falsy. -/
def updManufacturer (d : Device) (manufacturer : String) : Device :=
  if d.manufacturer = "" then { d with manufacturer := manufacturer } else d

/-- Source lines 47-48: replace the rssi when the candidate has strictly
smaller absolute value. -/
def updRssi (d : Device) (rssi : Int) : Device :=
  if rssi.natAbs < d.rssi.natAbs then { d with rssi := rssi } else d

/-- The field updates of source lines 39-48, applied in source order to the
record stored for an already-seen MAC. -/
def updateDevice (d : Device) (ts : ℚ) (name manufacturer : String) (rssi : Int) : Device :=
  updRssi (updManufacturer (updName (updTimes d ts) name) manufacturer) rssi

/-- Source lines 38-56: update the stored record if the MAC is present,
otherwise insert a fresh record with `firstTime = lastTime = timestamp`. -/
def mergeParsed (devices : DevMap) (mac : String) (ts : ℚ)
    (name manufacturer : String) (rssi : Int) : DevMap :=
  match findDev devices mac with
  | some d => setDev devices mac (updateDevice d ts name manufacturer rssi)
  | none => devices ++ [(mac, ⟨ts, ts, name, manufacturer, rssi⟩)]

/-- `_addDeviceRecord` (source lines 24-56). `none` models an uncaught
`ValueError` from `float(timestamp)` or `int(rssi)`. -/
def addDeviceRecord (devices : DevMap) (timestamp mac name manufacturer rssi : String) :
    Option DevMap :=
  let mac := normMac mac
  if mac = "" then some devices
  else
    match pyFloat timestamp with
    | none => none
    | some ts =>
      match rssiVal rssi with
      | none => none
      | some r => some (mergeParsed devices mac ts name manufacturer r)

/-- A candidate record: the five accumulator strings flushed at a block
boundary, in the argument order of `_addDeviceRecord`. -/
structure Cand where
  timestamp : String
  mac : String
  name : String
  manufacturer : String
  rssi : String
deriving DecidableEq, Repr

/-- Merge one candidate record (one `_addDeviceRecord` call). -/
def mergeCand (devices : DevMap) (c : Cand) : Option DevMap :=
  addDeviceRecord devices c.timestamp c.mac c.name c.manufacturer c.rssi

/-- Merge a sequence of candidate records left to right; `none` as soon as a
merge raises. -/
def mergeSeq (devices : DevMap) (cs : List Cand) : Option DevMap :=
  List.foldlM mergeCand devices cs

/-! ### The block parser (`parse`, source lines 71-126) -/

/-- The accumulators at the start of a file and right after a flush: all five
fields empty. -/
def emptyCand : Cand := ⟨"", "", "", "", ""⟩

/-- `re.match(r'^\S', line)`: the line is non-empty and its first character is
not whitespace. -/
def isBoundary (cs : List Char) : Bool :=
  match cs with
  | [] => false
  | c :: _ => !c.isWhitespace

/-- `re.search(r'] (.+?)$', line)`: the text after the first occurrence of
`] ` that is followed by at least one character reaching the end of line. -/
def searchTs : List Char → Option (List Char)
  | ']' :: ' ' :: c :: rest => some (c :: rest)
  | _ :: rest => searchTs rest
  | [] => none

/-- Lazy capture `(.+?)` up to the first occurrence of `pat` that leaves the
capture non-empty; `none` when `pat` never occurs after the first character. -/
def lazyCapture (pat : List Char) : List Char → List Char → Option (List Char)
  | _, [] => none
  | seen, c :: rest =>
    if pat.isPrefixOf (c :: rest) && !seen.isEmpty then some seen.reverse
    else lazyCapture pat (c :: seen) rest

/-- `re.match(r'^((LE )|(BR/EDR ))?Address: (.+?) ', line)`, returning
group 4: the characters between `Address: ` and the next space. -/
def matchAddress (cs : List Char) : Option (List Char) :=
  if ("LE Address: ".toList).isPrefixOf cs then
    lazyCapture [' '] [] (cs.drop 12)
  else if ("BR/EDR Address: ".toList).isPrefixOf cs then
    lazyCapture [' '] [] (cs.drop 16)
  else if ("Address: ".toList).isPrefixOf cs then
    lazyCapture [' '] [] (cs.drop 9)
  else none

/-- `re.match(r'^Name \(complete\): (.+?)$', line)`: everything after the
prefix, which must be non-empty. -/
def matchName (cs : List Char) : Option (List Char) :=
  if ("Name (complete): ".toList).isPrefixOf cs then
    let rest := cs.drop 17
    if rest.isEmpty then none else some rest
  else none

/-- Scan for the first ` (` split point with a non-empty capture on both
sides, as the backtracking of `^Company: (.+?) \((.+?)\)$` does once the
final `)` has been peeled off. -/
def companyGo (acc : List Char) : List Char → Option (List Char)
  | [] => none
  | c :: rest =>
    if c = ' ' && rest.head? = some '(' && !acc.isEmpty && !rest.tail.isEmpty then
      some acc.reverse
    else companyGo (c :: acc) rest

/-- `re.match(r'^Company: (.+?) \((.+?)\)$', line)`, returning group 1. -/
def matchCompany (cs : List Char) : Option (List Char) :=
  if ("Company: ".toList).isPrefixOf cs then
    let rest := cs.drop 9
    match rest.getLast? with
    | some ')' => companyGo [] rest.dropLast
    | _ => none
  else none

/-- `re.match(r'^RSSI: (.+?) dBm', line)`, returning group 1. -/
def matchRssi (cs : List Char) : Option (List Char) :=
  if ("RSSI: ".toList).isPrefixOf cs then
    lazyCapture (" dBm".toList) [] (cs.drop 6)
  else none

/-- A continuation (indented) line, source lines 98-120: left-strip, then try
the four field patterns in order, first match wins, otherwise ignore. -/
def parseContinuation (acc : Cand) (cs : List Char) : Cand :=
  let cs := lstripChars cs
  match matchAddress cs with
  | some m => { acc with mac := m.asString }
  | none =>
    match matchName cs with
    | some n => { acc with name := n.asString }
    | none =>
      match matchCompany cs with
      | some co => { acc with manufacturer := co.asString }
      | none =>
        match matchRssi cs with
        | some r => { acc with rssi := r.asString }
        | none => acc

/-- The accumulators right after a boundary line: everything reset, then the
timestamp re-extracted from the boundary line itself (source lines 89-97). -/
def boundaryAccum (cs : List Char) : Cand :=
  match searchTs cs with
  | some t => { emptyCand with timestamp := t.asString }
  | none => emptyCand

/-- The per-line loop of `parse` (source lines 84-120), threading the device
map and the five accumulators; `none` models an exception escaping the loop. -/
def parseLinesAux (devices : DevMap) (acc : Cand) : List String → Option (DevMap × Cand)
  | [] => some (devices, acc)
  | l :: ls =>
    if isBoundary (rstripChars l.toList) then
      match mergeCand devices acc with
      | none => none
      | some devs => parseLinesAux devs (boundaryAccum (rstripChars l.toList)) ls
    else
      parseLinesAux devices (parseContinuation acc (rstripChars l.toList)) ls

/-- `parse` on the lines of one file: the final accumulators are dropped
without a flush. -/
def parse (devices : DevMap) (lines : List String) : Option DevMap :=
  (parseLinesAux devices emptyCand lines).map Prod.fst

/-- Specification device for the flush discipline: the sequence of candidate
records `parse` hands to `_addDeviceRecord`, one per boundary line, each the
accumulator state gathered before that line. -/
def emitLines (acc : Cand) : List String → List Cand
  | [] => []
  | l :: ls =>
    if isBoundary (rstripChars l.toList) then
      acc :: emitLines (boundaryAccum (rstripChars l.toList)) ls
    else
      emitLines (parseContinuation acc (rstripChars l.toList)) ls

/-! ### Report rows (`report`, source lines 149-167) -/

/-- The RSSI cell of a report row: the stored integer, or the literal
`"Unknown"`. -/
inductive RssiCell where
  | unknown : RssiCell
  | value : Int → RssiCell
deriving DecidableEq, Repr

/-- One report row (source lines 150-166). -/
structure Row where
  mac : String
  firstTime : ℚ
  lastTime : ℚ
  name : String
  manufacturer : String
  rssi : RssiCell
deriving DecidableEq, Repr

/-- Row construction for one device (source lines 150-166): name falls back
to the MAC, manufacturer to `"Unknown"`, and the rssi cell is `"Unknown"`
when its absolute value exceeds 255. -/
def mkRow (mac : String) (d : Device) : Row :=
  { mac := mac
    firstTime := d.firstTime
    lastTime := d.lastTime
    name := if d.name ≠ "" then d.name else mac
    manufacturer := if d.manufacturer ≠ "" then d.manufacturer else "Unknown"
    rssi := if 255 < d.rssi.natAbs then RssiCell.unknown else RssiCell.value d.rssi }

/-- The string form of the rssi cell as it appears in the sort key
`f"{x[-1]} {x[0]}"`. -/
def cellStr : RssiCell → String
  | RssiCell.unknown => "Unknown"
  | RssiCell.value i => toString i

/-- The composite sort key of source line 167. -/
def rowKey (r : Row) : String :=
  cellStr r.rssi ++ " " ++ r.mac

/-- Row order used by `rows.sort(key=lambda x: f"{x[-1]} {x[0]}")`: code-point
lexicographic comparison of the keys, as Python string comparison behaves. -/
def rowLe (a b : Row) : Prop :=
  (rowKey a).toList ≤ (rowKey b).toList

instance : DecidableRel rowLe := fun a b =>
  inferInstanceAs (Decidable ((rowKey a).toList ≤ (rowKey b).toList))

instance : IsTotal Row rowLe :=
  ⟨fun a b => le_total (rowKey a).toList (rowKey b).toList⟩

instance : IsTrans Row rowLe :=
  ⟨fun _ _ _ h1 h2 => le_trans h1 h2⟩

/-- The rows of the report, built in dictionary order and then stably sorted
by the composite key (source lines 150-167). -/
def reportRows (devices : DevMap) : List Row :=
  List.insertionSort rowLe (devices.map (fun e => mkRow e.fst e.snd))

/-! ### Derived specification notions used by the claims -/

/-- The invariant `firstTime <= lastTime`, entry-wise over the device map. -/
def timeInv (m : DevMap) : Prop :=
  ∀ e ∈ m, (e.snd).firstTime ≤ (e.snd).lastTime

instance : DecidablePred timeInv := fun m =>
  inferInstanceAs (Decidable (∀ e ∈ m, (e.snd).firstTime ≤ (e.snd).lastTime))

/-- The device map never holds two entries for one key (Python dict). -/
def keysNodup (m : DevMap) : Prop :=
  (m.map Prod.fst).Nodup

instance : DecidablePred keysNodup := fun m =>
  inferInstanceAs (Decidable ((m.map Prod.fst).Nodup))

/-- The first non-empty string of a list, or `""` when there is none. -/
def firstNonEmpty (l : List String) : String :=
  match l.find? (fun s => s != "") with
  | some s => s
  | none => ""

/-! ### Lemmas about the single-record field updates -/

theorem Device.ext' {a b : Device} (h1 : a.firstTime = b.firstTime)
    (h2 : a.lastTime = b.lastTime) (h3 : a.name = b.name)
    (h4 : a.manufacturer = b.manufacturer) (h5 : a.rssi = b.rssi) : a = b := by
  cases a; cases b; simp_all

theorem updTimes_firstTime (d : Device) (ts : ℚ) :
    (updTimes d ts).firstTime = min d.firstTime ts := by
  unfold updTimes
  split_ifs with h1 h2
  · exact (min_eq_right h1.le).symm
  · exact (min_eq_left (not_lt.mp h1)).symm
  · exact (min_eq_left (not_lt.mp h1)).symm

theorem updTimes_lastTime (d : Device) (ts : ℚ) (h : d.firstTime ≤ d.lastTime) :
    (updTimes d ts).lastTime = max d.lastTime ts := by
  unfold updTimes
  split_ifs with h1 h2
  · exact (max_eq_left (h1.le.trans h)).symm
  · exact (max_eq_right h2.le).symm
  · exact (max_eq_left (not_lt.mp h2)).symm

theorem updTimes_name (d : Device) (ts : ℚ) : (updTimes d ts).name = d.name := by
  unfold updTimes; split_ifs <;> rfl

theorem updTimes_manufacturer (d : Device) (ts : ℚ) :
    (updTimes d ts).manufacturer = d.manufacturer := by
  unfold updTimes; split_ifs <;> rfl

theorem updTimes_rssi (d : Device) (ts : ℚ) : (updTimes d ts).rssi = d.rssi := by
  unfold updTimes; split_ifs <;> rfl

theorem updName_name (d : Device) (n : String) :
    (updName d n).name = if d.name = "" then n else d.name := by
  unfold updName; split_ifs <;> rfl

theorem updName_firstTime (d : Device) (n : String) :
    (updName d n).firstTime = d.firstTime := by
  unfold updName; split_ifs <;> rfl

theorem updName_lastTime (d : Device) (n : String) :
    (updName d n).lastTime = d.lastTime := by
  unfold updName; split_ifs <;> rfl

theorem updName_manufacturer (d : Device) (n : String) :
    (updName d n).manufacturer = d.manufacturer := by
  unfold updName; split_ifs <;> rfl

theorem updName_rssi (d : Device) (n : String) : (updName d n).rssi = d.rssi := by
  unfold updName; split_ifs <;> rfl

theorem updManufacturer_manufacturer (d : Device) (s : String) :
    (updManufacturer d s).manufacturer = if d.manufacturer = "" then s else d.manufacturer := by
  unfold updManufacturer; split_ifs <;> rfl

theorem updManufacturer_firstTime (d : Device) (s : String) :
    (updManufacturer d s).firstTime = d.firstTime := by
  unfold updManufacturer; split_ifs <;> rfl

theorem updManufacturer_lastTime (d : Device) (s : String) :
    (updManufacturer d s).lastTime = d.lastTime := by
  unfold updManufacturer; split_ifs <;> rfl

theorem updManufacturer_name (d : Device) (s : String) :
    (updManufacturer d s).name = d.name := by
  unfold updManufacturer; split_ifs <;> rfl

theorem updManufacturer_rssi (d : Device) (s : String) :
    (updManufacturer d s).rssi = d.rssi := by
  unfold updManufacturer; split_ifs <;> rfl

theorem updRssi_rssi_natAbs (d : Device) (r : Int) :
    (updRssi d r).rssi.natAbs = min d.rssi.natAbs r.natAbs := by
  unfold updRssi
  split_ifs with h1
  · exact (min_eq_right h1.le).symm
  · exact (min_eq_left (not_lt.mp h1)).symm

theorem updRssi_rssi (d : Device) (r : Int) :
    (updRssi d r).rssi = if r.natAbs < d.rssi.natAbs then r else d.rssi := by
  unfold updRssi; split_ifs <;> rfl

theorem updRssi_firstTime (d : Device) (r : Int) :
    (updRssi d r).firstTime = d.firstTime := by
  unfold updRssi; split_ifs <;> rfl

theorem updRssi_lastTime (d : Device) (r : Int) :
    (updRssi d r).lastTime = d.lastTime := by
  unfold updRssi; split_ifs <;> rfl

theorem updRssi_name (d : Device) (r : Int) : (updRssi d r).name = d.name := by
  unfold updRssi; split_ifs <;> rfl

theorem updRssi_manufacturer (d : Device) (r : Int) :
    (updRssi d r).manufacturer = d.manufacturer := by
  unfold updRssi; split_ifs <;> rfl

theorem updateDevice_firstTime (d : Device) (ts : ℚ) (n man : String) (r : Int) :
    (updateDevice d ts n man r).firstTime = min d.firstTime ts := by
  unfold updateDevice
  rw [updRssi_firstTime, updManufacturer_firstTime, updName_firstTime, updTimes_firstTime]

theorem updateDevice_lastTime (d : Device) (ts : ℚ) (n man : String) (r : Int)
    (h : d.firstTime ≤ d.lastTime) :
    (updateDevice d ts n man r).lastTime = max d.lastTime ts := by
  unfold updateDevice
  rw [updRssi_lastTime, updManufacturer_lastTime, updName_lastTime, updTimes_lastTime d ts h]

theorem updateDevice_name (d : Device) (ts : ℚ) (n man : String) (r : Int) :
    (updateDevice d ts n man r).name = if d.name = "" then n else d.name := by
  unfold updateDevice
  rw [updRssi_name, updManufacturer_name, updName_name, updTimes_name]

theorem updateDevice_manufacturer (d : Device) (ts : ℚ) (n man : String) (r : Int) :
    (updateDevice d ts n man r).manufacturer =
      if d.manufacturer = "" then man else d.manufacturer := by
  unfold updateDevice
  rw [updRssi_manufacturer, updManufacturer_manufacturer, updName_manufacturer,
    updTimes_manufacturer]

theorem updateDevice_rssi (d : Device) (ts : ℚ) (n man : String) (r : Int) :
    (updateDevice d ts n man r).rssi = if r.natAbs < d.rssi.natAbs then r else d.rssi := by
  unfold updateDevice
  rw [updRssi_rssi, updManufacturer_rssi, updName_rssi, updTimes_rssi]

theorem updateDevice_rssi_natAbs (d : Device) (ts : ℚ) (n man : String) (r : Int) :
    (updateDevice d ts n man r).rssi.natAbs = min d.rssi.natAbs r.natAbs := by
  rw [updateDevice_rssi]
  split_ifs with h1
  · exact (min_eq_right h1.le).symm
  · exact (min_eq_left (not_lt.mp h1)).symm

theorem updateDevice_inv (d : Device) (ts : ℚ) (n man : String) (r : Int)
    (h : d.firstTime ≤ d.lastTime) :
    (updateDevice d ts n man r).firstTime ≤ (updateDevice d ts n man r).lastTime := by
  rw [updateDevice_firstTime, updateDevice_lastTime d ts n man r h]
  exact le_trans (min_le_left _ _) (le_trans h (le_max_left _ _))

theorem updateDevice_idem (d : Device) (ts : ℚ) (n man : String) (r : Int)
    (h : d.firstTime ≤ d.lastTime) :
    updateDevice (updateDevice d ts n man r) ts n man r = updateDevice d ts n man r := by
  have hinv := updateDevice_inv d ts n man r h
  apply Device.ext'
  · rw [updateDevice_firstTime, updateDevice_firstTime, min_assoc, min_self]
  · rw [updateDevice_lastTime _ ts n man r hinv, updateDevice_lastTime d ts n man r h,
      max_assoc, max_self]
  · rw [updateDevice_name, updateDevice_name]
    by_cases hn : d.name = ""
    · simp only [hn, if_true]
      by_cases hn2 : n = "" <;> simp [hn2]
    · simp [hn]
  · rw [updateDevice_manufacturer, updateDevice_manufacturer]
    by_cases hm : d.manufacturer = ""
    · simp only [hm, if_true]
      by_cases hm2 : man = "" <;> simp [hm2]
    · simp [hm]
  · rw [updateDevice_rssi, updateDevice_rssi]
    by_cases hr : r.natAbs < d.rssi.natAbs
    · simp [hr]
    · simp [hr]

/-! ### Lemmas about the device map -/

theorem findDev_setDev_self (m : DevMap) (key : String) (d : Device) :
    findDev (setDev m key d) key = (findDev m key).map (fun _ => d) := by
  induction m with
  | nil => rfl
  | cons e rest ih =>
    simp only [setDev, List.map_cons, findDev] at *
    by_cases he : e.fst = key
    · simp [he]
    · simp [he, ih]

theorem findDev_setDev_ne (m : DevMap) (key k : String) (d : Device) (h : k ≠ key) :
    findDev (setDev m key d) k = findDev m k := by
  induction m with
  | nil => rfl
  | cons e rest ih =>
    simp only [setDev, List.map_cons, findDev] at *
    by_cases he : e.fst = key
    · simp [he, Ne.symm h, ih]
    · by_cases hk : e.fst = k <;> simp [he, hk, h, ih]

theorem findDev_append_of_none (m l : DevMap) (k : String) (h : findDev m k = none) :
    findDev (m ++ l) k = findDev l k := by
  induction m with
  | nil => rfl
  | cons e rest ih =>
    simp only [findDev, List.cons_append] at *
    by_cases he : e.fst = k
    · simp [he] at h
    · simp only [he, if_false] at h ⊢
      exact ih h

theorem findDev_append_of_some (m l : DevMap) (k : String) (d : Device)
    (h : findDev m k = some d) : findDev (m ++ l) k = some d := by
  induction m with
  | nil => simp [findDev] at h
  | cons e rest ih =>
    simp only [findDev, List.cons_append] at *
    by_cases he : e.fst = k
    · simpa [he] using h
    · simp only [he, if_false] at h ⊢
      exact ih h

theorem findDev_singleton (key k : String) (d : Device) :
    findDev [(key, d)] k = if key = k then some d else none := rfl

theorem findDev_mem (m : DevMap) (key : String) (d : Device)
    (h : findDev m key = some d) : (key, d) ∈ m := by
  induction m with
  | nil => simp [findDev] at h
  | cons e rest ih =>
    simp only [findDev] at h
    by_cases he : e.fst = key
    · rw [if_pos he] at h
      injection h with h2
      have he2 : e = (key, d) := Prod.ext he h2
      rw [← he2]
      exact List.mem_cons_self _ _
    · rw [if_neg he] at h
      exact List.mem_cons_of_mem _ (ih h)

theorem setDev_mem (m : DevMap) (key : String) (d : Device) (e : String × Device)
    (h : e ∈ setDev m key d) : e.snd = d ∨ e ∈ m := by
  simp only [setDev, List.mem_map] at h
  obtain ⟨e0, he0, heq⟩ := h
  by_cases hk : e0.fst = key
  · left; rw [← heq]; simp [hk]
  · right; rw [← heq]; simpa [hk] using he0

theorem keys_setDev (m : DevMap) (key : String) (d : Device) :
    (setDev m key d).map Prod.fst = m.map Prod.fst := by
  induction m with
  | nil => rfl
  | cons e rest ih =>
    simp only [setDev, List.map_cons] at *
    by_cases he : e.fst = key <;> simp [he, ih]

theorem findDev_eq_none_iff (m : DevMap) (k : String) :
    findDev m k = none ↔ k ∉ m.map Prod.fst := by
  induction m with
  | nil => simp [findDev]
  | cons e rest ih =>
    simp only [findDev, List.map_cons, List.mem_cons]
    by_cases he : e.fst = k
    · simp [he]
    · rw [if_neg he, ih]
      constructor
      · intro hnm hor
        cases hor with
        | inl h1 => exact he h1.symm
        | inr h2 => exact hnm h2
      · intro hall hm
        exact hall (Or.inr hm)

theorem setDev_not_mem (m : DevMap) (key : String) (d : Device)
    (h : findDev m key = none) : setDev m key d = m := by
  induction m with
  | nil => rfl
  | cons e rest ih =>
    simp only [findDev] at h
    by_cases he : e.fst = key
    · simp [he] at h
    · rw [if_neg he] at h
      simp only [setDev, List.map_cons, if_neg he]
      rw [show List.map (fun e => if e.fst = key then (e.fst, d) else e) rest = setDev rest key d from rfl,
        ih h]

theorem setDev_self (m : DevMap) (key : String) (d : Device)
    (hnd : keysNodup m) (h : findDev m key = some d) : setDev m key d = m := by
  induction m with
  | nil => rfl
  | cons e rest ih =>
    simp only [keysNodup, List.map_cons, List.nodup_cons] at hnd
    simp only [findDev] at h
    by_cases he : e.fst = key
    · rw [if_pos he] at h
      have hd : e.snd = d := by injection h
      have hrest : setDev rest key d = rest := by
        apply setDev_not_mem
        rw [findDev_eq_none_iff, ← he]
        exact hnd.1
      simp only [setDev, List.map_cons, if_pos he]
      rw [show List.map (fun e => if e.fst = key then (e.fst, d) else e) rest = setDev rest key d from rfl,
        hrest, ← hd]
    · rw [if_neg he] at h
      simp only [setDev, List.map_cons, if_neg he]
      rw [show List.map (fun e => if e.fst = key then (e.fst, d) else e) rest = setDev rest key d from rfl,
        ih hnd.2 h]

theorem keysNodup_setDev (m : DevMap) (key : String) (d : Device)
    (h : keysNodup m) : keysNodup (setDev m key d) := by
  unfold keysNodup
  rw [keys_setDev]
  exact h

theorem keysNodup_append (m : DevMap) (key : String) (d : Device)
    (hnd : keysNodup m) (h : findDev m key = none) : keysNodup (m ++ [(key, d)]) := by
  unfold keysNodup at *
  rw [List.map_append]
  simp only [List.map_cons, List.map_nil]
  rw [List.nodup_append]
  refine ⟨hnd, List.nodup_singleton key, ?_⟩
  intro a ha hb
  simp only [List.mem_singleton] at hb
  rw [hb] at ha
  exact (findDev_eq_none_iff m key).mp h ha

/-! ### Characterization of a single `_addDeviceRecord` call -/

theorem addDeviceRecord_of_emptyMac (devices : DevMap) (ts mac n man r : String)
    (h : normMac mac = "") : addDeviceRecord devices ts mac n man r = some devices := by
  unfold addDeviceRecord
  simp [h]

theorem addDeviceRecord_eq_some (devices m : DevMap) (ts mac n man r : String)
    (h : normMac mac ≠ "") :
    addDeviceRecord devices ts mac n man r = some m ↔
      ∃ v ri, pyFloat ts = some v ∧ rssiVal r = some ri ∧
        m = mergeParsed devices (normMac mac) v n man ri := by
  unfold addDeviceRecord
  cases hf : pyFloat ts <;> cases hr : rssiVal r <;>
    simp [h, hf, hr, eq_comm]

/-! ### Evolution of one record under a sequence of merges -/

/-- How the record stored for `key` evolves over a whole sequence of merges
for that key: `firstTime` folds with `min`, `lastTime` with `max`, name and
manufacturer with first-non-empty-wins, and the rssi magnitude with `min`. -/
theorem mergeSeq_existing (cands : List Cand) :
    ∀ (devices m : DevMap) (key : String) (d : Device),
      key ≠ "" →
      (∀ c ∈ cands, normMac c.mac = key) →
      findDev devices key = some d →
      d.firstTime ≤ d.lastTime →
      mergeSeq devices cands = some m →
      ∃ e : Device, findDev m key = some e
        ∧ e.firstTime = (cands.filterMap (fun c => pyFloat c.timestamp)).foldl min d.firstTime
        ∧ e.lastTime = (cands.filterMap (fun c => pyFloat c.timestamp)).foldl max d.lastTime
        ∧ e.firstTime ≤ e.lastTime
        ∧ e.name = (cands.map Cand.name).foldl (fun a x => if a = "" then x else a) d.name
        ∧ e.manufacturer =
            (cands.map Cand.manufacturer).foldl (fun a x => if a = "" then x else a) d.manufacturer
        ∧ e.rssi.natAbs =
            (cands.filterMap (fun c => rssiVal c.rssi)).foldl (fun a x => min a x.natAbs)
              d.rssi.natAbs := by
  induction cands with
  | nil =>
    intro devices m key d _ _ hd hinv h
    have h2 : devices = m := by simpa [mergeSeq] using h
    subst h2
    exact ⟨d, hd, rfl, rfl, hinv, rfl, rfl, rfl⟩
  | cons c cs ih =>
    intro devices m key d hkey hmac hd hinv h
    simp only [mergeSeq, List.foldlM_cons] at h
    cases hc : mergeCand devices c with
    | none => rw [hc] at h; simp at h
    | some m1 =>
      rw [hc] at h
      have h : mergeSeq m1 cs = some m := h
      have hmac0 : normMac c.mac = key := hmac c (List.mem_cons_self c cs)
      have hkey0 : normMac c.mac ≠ "" := by rw [hmac0]; exact hkey
      obtain ⟨v, ri, hv, hr, hm1⟩ :=
        (addDeviceRecord_eq_some devices m1 c.timestamp c.mac c.name c.manufacturer c.rssi
          hkey0).mp hc
      rw [hmac0] at hm1
      rw [hm1] at h
      have hd1 : findDev (mergeParsed devices key v c.name c.manufacturer ri) key =
          some (updateDevice d v c.name c.manufacturer ri) := by
        unfold mergeParsed
        rw [hd, findDev_setDev_self, hd]
        rfl
      obtain ⟨e, he, hft, hlt, hinv2, hn, hmn, hrs⟩ :=
        ih (mergeParsed devices key v c.name c.manufacturer ri) m key
          (updateDevice d v c.name c.manufacturer ri)
          hkey (fun c2 hc2 => hmac c2 (List.mem_cons_of_mem c hc2)) hd1
          (updateDevice_inv d v c.name c.manufacturer ri hinv) h
      refine ⟨e, he, ?_, ?_, hinv2, ?_, ?_, ?_⟩
      · rw [hft, updateDevice_firstTime]
        simp only [List.filterMap_cons, hv, List.foldl_cons]
      · rw [hlt, updateDevice_lastTime d v c.name c.manufacturer ri hinv]
        simp only [List.filterMap_cons, hv, List.foldl_cons]
      · rw [hn, List.map_cons, List.foldl_cons, updateDevice_name]
      · rw [hmn, List.map_cons, List.foldl_cons, updateDevice_manufacturer]
      · rw [hrs, updateDevice_rssi_natAbs]
        simp only [List.filterMap_cons, hr, List.foldl_cons]

/-- A non-empty sequence of merges for one previously unseen key: the first
candidate creates the record, the rest evolve it as in `mergeSeq_existing`. -/
theorem mergeSeq_fresh (c0 : Cand) (cs : List Cand) (devices m : DevMap) (key : String)
    (hkey : key ≠ "")
    (hmac : ∀ c ∈ c0 :: cs, normMac c.mac = key)
    (hfresh : findDev devices key = none)
    (h : mergeSeq devices (c0 :: cs) = some m) :
    ∃ v0 r0 e, pyFloat c0.timestamp = some v0 ∧ rssiVal c0.rssi = some r0 ∧
      findDev m key = some e
      ∧ e.firstTime = (cs.filterMap (fun c => pyFloat c.timestamp)).foldl min v0
      ∧ e.lastTime = (cs.filterMap (fun c => pyFloat c.timestamp)).foldl max v0
      ∧ e.firstTime ≤ e.lastTime
      ∧ e.name = (cs.map Cand.name).foldl (fun a x => if a = "" then x else a) c0.name
      ∧ e.manufacturer =
          (cs.map Cand.manufacturer).foldl (fun a x => if a = "" then x else a) c0.manufacturer
      ∧ e.rssi.natAbs =
          (cs.filterMap (fun c => rssiVal c.rssi)).foldl (fun a x => min a x.natAbs)
            r0.natAbs := by
  simp only [mergeSeq, List.foldlM_cons] at h
  cases hc : mergeCand devices c0 with
  | none => rw [hc] at h; simp at h
  | some m1 =>
    rw [hc] at h
    have h : mergeSeq m1 cs = some m := h
    have hmac0 : normMac c0.mac = key := hmac c0 (List.mem_cons_self c0 cs)
    have hkey0 : normMac c0.mac ≠ "" := by rw [hmac0]; exact hkey
    obtain ⟨v, ri, hv, hr, hm1⟩ :=
      (addDeviceRecord_eq_some devices m1 c0.timestamp c0.mac c0.name c0.manufacturer c0.rssi
        hkey0).mp hc
    rw [hmac0] at hm1
    have hm1' : m1 = devices ++ [(key, ⟨v, v, c0.name, c0.manufacturer, ri⟩)] := by
      rw [hm1]; unfold mergeParsed; rw [hfresh]
    have hd1 : findDev m1 key = some ⟨v, v, c0.name, c0.manufacturer, ri⟩ := by
      rw [hm1', findDev_append_of_none devices _ key hfresh, findDev_singleton, if_pos rfl]
    obtain ⟨e, he, hft, hlt, hinv2, hn, hmn, hrs⟩ :=
      mergeSeq_existing cs m1 m key ⟨v, v, c0.name, c0.manufacturer, ri⟩
        hkey (fun c2 hc2 => hmac c2 (List.mem_cons_of_mem c0 hc2)) hd1 le_rfl h
    exact ⟨v, ri, e, hv, hr, he, hft, hlt, hinv2, hn, hmn, hrs⟩

/-- Unfolding of `firstNonEmpty` on a cons cell. -/
theorem firstNonEmpty_cons (x : String) (l : List String) :
    firstNonEmpty (x :: l) = if x = "" then firstNonEmpty l else x := by
  by_cases hx : x = ""
  · unfold firstNonEmpty
    rw [List.find?_cons_of_neg _ (by simp [hx]), if_pos hx]
  · unfold firstNonEmpty
    rw [List.find?_cons_of_pos _ (by simp [hx]), if_neg hx]

/-- First-non-empty-wins fold in closed form. -/
theorem foldl_firstNonEmpty (l : List String) :
    ∀ a : String, l.foldl (fun a x => if a = "" then x else a) a =
      if a = "" then firstNonEmpty l else a := by
  induction l with
  | nil => intro a; by_cases ha : a = "" <;> simp [ha, firstNonEmpty]
  | cons x l ih =>
    intro a
    rw [List.foldl_cons, ih, firstNonEmpty_cons]
    by_cases ha : a = ""
    · simp [ha]
    · simp [ha]

/-! ### Flush discipline of the block parser -/

/-- `parse` equals folding `_addDeviceRecord` over exactly the candidate
records flushed at boundary lines; the trailing accumulators are dropped. -/
theorem parseAux_emit (lines : List String) :
    ∀ (devices : DevMap) (acc : Cand),
      (parseLinesAux devices acc lines).map Prod.fst =
        List.foldlM mergeCand devices (emitLines acc lines) := by
  induction lines with
  | nil => intro devices acc; rfl
  | cons l ls ih =>
    intro devices acc
    by_cases hb : isBoundary (rstripChars l.toList) = true
    · simp only [parseLinesAux, emitLines, hb, if_true, List.foldlM_cons]
      cases hc : mergeCand devices acc with
      | none => simp [hc]
      | some devs => simp [hc, ih]
    · simp only [parseLinesAux, emitLines, hb, if_false]
      exact ih devices (parseContinuation acc (rstripChars l.toList))

/-- One candidate record is emitted per boundary line. -/
theorem emitLines_length (lines : List String) :
    ∀ acc : Cand, (emitLines acc lines).length =
      lines.countP (fun l => isBoundary (rstripChars l.toList)) := by
  induction lines with
  | nil => intro acc; rfl
  | cons l ls ih =>
    intro acc
    rw [List.countP_cons]
    by_cases hb : isBoundary (rstripChars l.toList) = true
    · simp only [emitLines]
      rw [if_pos hb, List.length_cons, ih, if_pos hb]
    · simp only [emitLines]
      rw [if_neg hb, ih, if_neg hb, Nat.add_zero]

/-! ### The claims -/

/-- Claim C1, counterexample: `_addDeviceRecord` is not a total function.
With a non-empty MAC and an empty timestamp string, `float("")` raises, so
the call does not return normally (modelled by `none`). -/
theorem merge_not_total_cex : addDeviceRecord [] "" "AA" "" "" "" = none := by decide

/-- Claim C1, amended: `_addDeviceRecord` returns normally exactly when the
normalized MAC is empty (the early return precedes all parsing), or the
timestamp string parses as a float and the rssi string is empty or parses as
an integer; on any other candidate it raises. -/
theorem merge_total_iff (devices : DevMap) (ts mac n man r : String) :
    (addDeviceRecord devices ts mac n man r).isSome ↔
      (normMac mac = "" ∨ ((pyFloat ts).isSome ∧ (rssiVal r).isSome)) := by
  unfold addDeviceRecord
  by_cases h : normMac mac = ""
  · simp [h]
  · cases hf : pyFloat ts <;> cases hr : rssiVal r <;> simp [h, hf, hr]

/-- Claim C2: for every non-empty sequence of candidates merged for one
previously unseen MAC (same non-empty normalized MAC, every timestamp
parsing), the stored record ends with `firstTime` the minimum and `lastTime`
the maximum of all merged timestamps, despite the if/elif precedence. -/
theorem merge_bounds_min_max (cands : List Cand) (devices m : DevMap) (key : String)
    (hkey : key ≠ "")
    (hmac : ∀ c ∈ cands, normMac c.mac = key)
    (hfresh : findDev devices key = none)
    (hne : cands ≠ [])
    (h : mergeSeq devices cands = some m) :
    ∃ e : Device, findDev m key = some e
      ∧ (cands.filterMap (fun c => pyFloat c.timestamp)).min? = some e.firstTime
      ∧ (cands.filterMap (fun c => pyFloat c.timestamp)).max? = some e.lastTime := by
  obtain ⟨c0, cs, rfl⟩ := List.exists_cons_of_ne_nil hne
  obtain ⟨v0, r0, e, hv0, hr0, he, hft, hlt, _, _, _, _⟩ :=
    mergeSeq_fresh c0 cs devices m key hkey hmac hfresh h
  have h1 : List.filterMap (fun c => pyFloat c.timestamp) (c0 :: cs) =
      v0 :: List.filterMap (fun c => pyFloat c.timestamp) cs := by
    simp [List.filterMap_cons, hv0]
  refine ⟨e, he, ?_, ?_⟩
  · rw [h1, hft]
    rfl
  · rw [h1, hlt]
    rfl

/-- Claim C3: `firstTime <= lastTime` holds when a record is created (both
fields equal the candidate timestamp) and is preserved by every successful
merge. -/
theorem merge_time_invariant (devices m : DevMap) (ts mac n man r : String)
    (hinv : timeInv devices)
    (h : addDeviceRecord devices ts mac n man r = some m) :
    timeInv m
    ∧ (normMac mac ≠ "" → findDev devices (normMac mac) = none →
        ∃ e, findDev m (normMac mac) = some e ∧ e.firstTime = e.lastTime) := by
  by_cases hkey : normMac mac = ""
  · rw [addDeviceRecord_of_emptyMac devices ts mac n man r hkey] at h
    have hm : devices = m := Option.some_inj.mp h
    subst hm
    exact ⟨hinv, fun hk => absurd hkey hk⟩
  · obtain ⟨v, ri, hv, hr, hm⟩ :=
      (addDeviceRecord_eq_some devices m ts mac n man r hkey).mp h
    subst hm
    cases hd : findDev devices (normMac mac) with
    | some d =>
      simp only [mergeParsed, hd]
      constructor
      · intro e2 he2
        rcases setDev_mem devices (normMac mac) (updateDevice d v n man ri) e2 he2 with h1 | h2
        · rw [h1]
          exact updateDevice_inv d v n man ri
            (hinv (normMac mac, d) (findDev_mem devices (normMac mac) d hd))
        · exact hinv e2 h2
      · intro _ hfresh
        exact Option.noConfusion hfresh
    | none =>
      simp only [mergeParsed, hd]
      constructor
      · intro e2 he2
        rcases List.mem_append.mp he2 with h1 | h2
        · exact hinv e2 h1
        · rw [List.mem_singleton.mp h2]
      · intro _ _
        refine ⟨⟨v, v, n, man, ri⟩, ?_, rfl⟩
        rw [findDev_append_of_none devices _ _ hd, findDev_singleton, if_pos rfl]

/-- Claim C4: first-non-empty-wins, independently for name and manufacturer:
over any non-empty merge sequence for one previously unseen MAC, the final
stored name is the first non-empty candidate name (empty if none), and
likewise for the manufacturer. -/
theorem merge_first_nonempty_wins (cands : List Cand) (devices m : DevMap) (key : String)
    (hkey : key ≠ "")
    (hmac : ∀ c ∈ cands, normMac c.mac = key)
    (hfresh : findDev devices key = none)
    (hne : cands ≠ [])
    (h : mergeSeq devices cands = some m) :
    ∃ e : Device, findDev m key = some e
      ∧ e.name = firstNonEmpty (cands.map Cand.name)
      ∧ e.manufacturer = firstNonEmpty (cands.map Cand.manufacturer) := by
  obtain ⟨c0, cs, rfl⟩ := List.exists_cons_of_ne_nil hne
  obtain ⟨v0, r0, e, hv0, hr0, he, _, _, _, hn, hmn, _⟩ :=
    mergeSeq_fresh c0 cs devices m key hkey hmac hfresh h
  refine ⟨e, he, ?_, ?_⟩
  · rw [hn, foldl_firstNonEmpty, List.map_cons, firstNonEmpty_cons]
  · rw [hmn, foldl_firstNonEmpty, List.map_cons, firstNonEmpty_cons]

/-- Claim C5: strongest-signal-wins: after a non-empty merge sequence for one
previously unseen MAC, the absolute value of the stored rssi is the minimum
absolute value over all merged rssi values (an empty rssi string counting as
the sentinel 5000). -/
theorem merge_strongest_signal (cands : List Cand) (devices m : DevMap) (key : String)
    (hkey : key ≠ "")
    (hmac : ∀ c ∈ cands, normMac c.mac = key)
    (hfresh : findDev devices key = none)
    (hne : cands ≠ [])
    (h : mergeSeq devices cands = some m) :
    ∃ e : Device, findDev m key = some e
      ∧ ((cands.filterMap (fun c => rssiVal c.rssi)).map Int.natAbs).min? =
          some e.rssi.natAbs := by
  obtain ⟨c0, cs, rfl⟩ := List.exists_cons_of_ne_nil hne
  obtain ⟨v0, r0, e, hv0, hr0, he, _, _, _, _, _, hrs⟩ :=
    mergeSeq_fresh c0 cs devices m key hkey hmac hfresh h
  refine ⟨e, he, ?_⟩
  have h1 : List.filterMap (fun c => rssiVal c.rssi) (c0 :: cs) =
      r0 :: List.filterMap (fun c => rssiVal c.rssi) cs := by
    simp [List.filterMap_cons, hr0]
  rw [h1, List.map_cons, hrs]
  have h2 : (r0.natAbs :: ((List.filterMap (fun c => rssiVal c.rssi) cs).map Int.natAbs)).min? =
      some (((List.filterMap (fun c => rssiVal c.rssi) cs).map Int.natAbs).foldl min
        r0.natAbs) := rfl
  rw [h2, List.foldl_map]

/-- Claim C6: a candidate whose MAC is empty after trimming and uppercasing
is discarded: the device map is returned exactly unchanged, whatever the
other four fields contain. -/
theorem merge_empty_mac_discard (devices : DevMap) (ts mac n man r : String)
    (h : normMac mac = "") :
    addDeviceRecord devices ts mac n man r = some devices :=
  addDeviceRecord_of_emptyMac devices ts mac n man r h

/-- Claim C7: merging the identical candidate twice in succession leaves the
device map exactly as after merging it once; on a previously unseen MAC the
record has `firstTime = lastTime =` the single timestamp value. The aggregator
state is assumed to satisfy the dictionary key-uniqueness and the
`firstTime <= lastTime` data-model invariants. -/
theorem merge_idempotent (devices m : DevMap) (ts mac n man r : String)
    (hkey : normMac mac ≠ "") (hnd : keysNodup devices) (hinv : timeInv devices)
    (h : addDeviceRecord devices ts mac n man r = some m) :
    addDeviceRecord m ts mac n man r = some m
    ∧ (findDev devices (normMac mac) = none →
        ∃ v, pyFloat ts = some v ∧
          ∃ e, findDev m (normMac mac) = some e ∧ e.firstTime = v ∧ e.lastTime = v) := by
  obtain ⟨v, ri, hv, hr, hm⟩ := (addDeviceRecord_eq_some devices m ts mac n man r hkey).mp h
  cases hd : findDev devices (normMac mac) with
  | some d =>
    have hm' : m = setDev devices (normMac mac) (updateDevice d v n man ri) := by
      rw [hm]; simp only [mergeParsed, hd]
    have hdinv : d.firstTime ≤ d.lastTime :=
      hinv (normMac mac, d) (findDev_mem devices (normMac mac) d hd)
    have hfm : findDev m (normMac mac) = some (updateDevice d v n man ri) := by
      rw [hm', findDev_setDev_self, hd]
      rfl
    constructor
    · rw [addDeviceRecord_eq_some m m ts mac n man r hkey]
      refine ⟨v, ri, hv, hr, ?_⟩
      simp only [mergeParsed, hfm]
      rw [updateDevice_idem d v n man ri hdinv]
      exact (setDev_self m (normMac mac) (updateDevice d v n man ri)
        (by rw [hm']; exact keysNodup_setDev devices _ _ hnd) hfm).symm
    · intro hfresh
      exact Option.noConfusion hfresh
  | none =>
    have hm' : m = devices ++ [(normMac mac, ⟨v, v, n, man, ri⟩)] := by
      rw [hm]; simp only [mergeParsed, hd]
    have hfm : findDev m (normMac mac) = some ⟨v, v, n, man, ri⟩ := by
      rw [hm', findDev_append_of_none devices _ _ hd, findDev_singleton, if_pos rfl]
    have hupd : updateDevice ⟨v, v, n, man, ri⟩ v n man ri = ⟨v, v, n, man, ri⟩ := by
      apply Device.ext'
      · rw [updateDevice_firstTime]
        exact min_self v
      · rw [updateDevice_lastTime _ _ _ _ _ le_rfl]
        exact max_self v
      · rw [updateDevice_name]
        show (if n = "" then n else n) = n
        exact ite_self n
      · rw [updateDevice_manufacturer]
        show (if man = "" then man else man) = man
        exact ite_self man
      · rw [updateDevice_rssi]
        show (if ri.natAbs < ri.natAbs then ri else ri) = ri
        exact ite_self ri
    constructor
    · rw [addDeviceRecord_eq_some m m ts mac n man r hkey]
      refine ⟨v, ri, hv, hr, ?_⟩
      simp only [mergeParsed, hfm]
      rw [hupd]
      have hnd2 : keysNodup m := by
        rw [hm']
        exact keysNodup_append devices _ _ hnd hd
      exact (setDev_self m _ _ hnd2 hfm).symm
    · intro _
      exact ⟨v, hv, ⟨v, v, n, man, ri⟩, hfm, rfl, rfl⟩

/-- Claim C8: the parser merges exactly one candidate record per boundary
line (a non-empty line whose first character is not whitespace), each the
accumulators gathered before that line, and the trailing accumulators left
after the last line are never flushed. -/
theorem parse_flush_per_boundary (devices : DevMap) (lines : List String) :
    parse devices lines = List.foldlM mergeCand devices (emitLines emptyCand lines)
    ∧ (emitLines emptyCand lines).length =
        lines.countP (fun l => isBoundary (rstripChars l.toList)) :=
  ⟨parseAux_emit lines devices emptyCand, emitLines_length lines emptyCand⟩

/-- Claim C9: report rows show `"Unknown"` for the rssi exactly when its
absolute value exceeds 255 (which covers the sentinel 5000), fall back to
the MAC for an unset name and to `"Unknown"` for an unset manufacturer, and
are sorted lexicographically by the textual key `"<rssi-cell> <mac>"`. -/
theorem report_rows_spec (devices : DevMap) :
    List.Sorted rowLe (reportRows devices)
    ∧ (reportRows devices).Perm (devices.map (fun e => mkRow e.fst e.snd))
    ∧ (∀ mac d, ((mkRow mac d).rssi = RssiCell.unknown ↔ 255 < d.rssi.natAbs)
        ∧ ((mkRow mac d).rssi = RssiCell.value d.rssi ↔ d.rssi.natAbs ≤ 255)
        ∧ (mkRow mac d).name = (if d.name = "" then mac else d.name)
        ∧ (mkRow mac d).manufacturer =
            (if d.manufacturer = "" then "Unknown" else d.manufacturer)
        ∧ rowKey (mkRow mac d) =
            (if 255 < d.rssi.natAbs then "Unknown" else toString d.rssi) ++ " " ++ mac)
    ∧ (mkRow "AA:BB:CC:DD:EE:FF" ⟨0, 0, "", "", 5000⟩).rssi = RssiCell.unknown := by
  refine ⟨List.sorted_insertionSort rowLe _, List.perm_insertionSort rowLe _, ?_, by decide⟩
  intro mac d
  refine ⟨?_, ?_, ?_, ?_, ?_⟩
  · unfold mkRow
    by_cases hr : 255 < d.rssi.natAbs <;> simp [hr]
  · unfold mkRow
    by_cases hr : 255 < d.rssi.natAbs
    · simp only [hr, if_true]
      constructor
      · intro h2
        exact absurd h2.symm (by simp)
      · intro h2
        omega
    · simp only [hr, if_false]
      constructor
      · intro _
        omega
      · intro _
        trivial
  · unfold mkRow
    by_cases hn : d.name = "" <;> simp [hn]
  · unfold mkRow
    by_cases hn : d.manufacturer = "" <;> simp [hn]
  · unfold rowKey mkRow cellStr
    by_cases hr : 255 < d.rssi.natAbs <;> simp [hr]

/-- Claim C10: a merge modifies at most the record stored under the
candidate's normalized MAC: every other key maps to an unchanged record, and
no key present before the merge is absent after it. -/
theorem merge_frame (devices m : DevMap) (ts mac n man r : String)
    (h : addDeviceRecord devices ts mac n man r = some m) :
    (∀ k, k ≠ normMac mac → findDev m k = findDev devices k)
    ∧ (∀ k, (findDev devices k).isSome → (findDev m k).isSome) := by
  by_cases hkey : normMac mac = ""
  · rw [addDeviceRecord_of_emptyMac devices ts mac n man r hkey] at h
    have hm : devices = m := Option.some_inj.mp h
    subst hm
    exact ⟨fun k _ => rfl, fun k hs => hs⟩
  · obtain ⟨v, ri, hv, hr, hm⟩ := (addDeviceRecord_eq_some devices m ts mac n man r hkey).mp h
    subst hm
    cases hd : findDev devices (normMac mac) with
    | some d =>
      simp only [mergeParsed, hd]
      constructor
      · intro k hk
        exact findDev_setDev_ne devices (normMac mac) k _ hk
      · intro k hs
        by_cases hk : k = normMac mac
        · subst hk
          rw [findDev_setDev_self, hd]
          rfl
        · rw [findDev_setDev_ne devices (normMac mac) k _ hk]
          exact hs
    | none =>
      simp only [mergeParsed, hd]
      constructor
      · intro k hk
        cases hfk : findDev devices k with
        | some d0 => rw [findDev_append_of_some devices _ k d0 hfk]
        | none =>
          rw [findDev_append_of_none devices _ k hfk, findDev_singleton,
            if_neg (fun hkk => hk hkk.symm)]
      · intro k hs
        cases hfk : findDev devices k with
        | some d0 =>
          rw [findDev_append_of_some devices _ k d0 hfk]
          rfl
        | none =>
          rw [hfk] at hs
          exact absurd hs (by simp)

/-! ### Witnesses -/

/-- Witness for claim C2 at a concrete three-candidate sequence: timestamps
2.0, 1.0, 3.0 end with `firstTime = 1` and `lastTime = 3`. -/
theorem merge_bounds_min_max_witness :
    mergeSeq [] [⟨"2.0", "aa", "", "", ""⟩, ⟨"1.0", "AA", "", "", ""⟩, ⟨"3.0", "aA", "", "", ""⟩] =
      some [("AA", ⟨1, 3, "", "", 5000⟩)]
    ∧ ∃ e : Device, findDev [("AA", ⟨1, 3, "", "", 5000⟩)] "AA" = some e
        ∧ (([⟨"2.0", "aa", "", "", ""⟩, ⟨"1.0", "AA", "", "", ""⟩,
            ⟨"3.0", "aA", "", "", ""⟩] : List Cand).filterMap
              (fun c => pyFloat c.timestamp)).min? = some e.firstTime
        ∧ (([⟨"2.0", "aa", "", "", ""⟩, ⟨"1.0", "AA", "", "", ""⟩,
            ⟨"3.0", "aA", "", "", ""⟩] : List Cand).filterMap
              (fun c => pyFloat c.timestamp)).max? = some e.lastTime :=
  ⟨by decide,
    merge_bounds_min_max [⟨"2.0", "aa", "", "", ""⟩, ⟨"1.0", "AA", "", "", ""⟩,
        ⟨"3.0", "aA", "", "", ""⟩] [] [("AA", ⟨1, 3, "", "", 5000⟩)] "AA"
      (by decide) (by decide) (by decide) (by decide) (by decide)⟩

/-- Witness for claim C3: the invariant holds for the empty map and for the
map produced by a first merge. -/
theorem merge_time_invariant_witness :
    timeInv ([] : DevMap) ∧ timeInv [("BB", ⟨5, 5, "", "", 5000⟩)] :=
  ⟨by decide,
    (merge_time_invariant [] [("BB", ⟨5, 5, "", "", 5000⟩)] "5.0" "bb" "" "" ""
      (by decide) (by decide)).1⟩

/-- Witness for claim C4 at the spec's example: name sequence
`["", "Alice", "Bob"]` ends with stored name `"Alice"`. -/
theorem merge_first_nonempty_wins_witness :
    mergeSeq [] [⟨"1.0", "AA", "", "", ""⟩, ⟨"1.5", "AA", "Alice", "", ""⟩,
        ⟨"2.0", "AA", "Bob", "", ""⟩] = some [("AA", ⟨1, 2, "Alice", "", 5000⟩)]
    ∧ firstNonEmpty ["", "Alice", "Bob"] = "Alice"
    ∧ ∃ e : Device, findDev [("AA", ⟨1, 2, "Alice", "", 5000⟩)] "AA" = some e
        ∧ e.name = firstNonEmpty (([⟨"1.0", "AA", "", "", ""⟩,
            ⟨"1.5", "AA", "Alice", "", ""⟩,
            ⟨"2.0", "AA", "Bob", "", ""⟩] : List Cand).map Cand.name)
        ∧ e.manufacturer = firstNonEmpty (([⟨"1.0", "AA", "", "", ""⟩,
            ⟨"1.5", "AA", "Alice", "", ""⟩,
            ⟨"2.0", "AA", "Bob", "", ""⟩] : List Cand).map Cand.manufacturer) :=
  ⟨by decide, by decide,
    merge_first_nonempty_wins [⟨"1.0", "AA", "", "", ""⟩, ⟨"1.5", "AA", "Alice", "", ""⟩,
        ⟨"2.0", "AA", "Bob", "", ""⟩] [] [("AA", ⟨1, 2, "Alice", "", 5000⟩)] "AA"
      (by decide) (by decide) (by decide) (by decide) (by decide)⟩

/-- Witness for claim C5 at the spec's example: rssi sequence
`[-80, -45, -90]` ends with stored rssi `-45`. -/
theorem merge_strongest_signal_witness :
    mergeSeq [] [⟨"1.0", "AA", "", "", "-80"⟩, ⟨"2.0", "AA", "", "", "-45"⟩,
        ⟨"3.0", "AA", "", "", "-90"⟩] = some [("AA", ⟨1, 3, "", "", -45⟩)]
    ∧ ∃ e : Device, findDev [("AA", ⟨1, 3, "", "", -45⟩)] "AA" = some e
        ∧ ((([⟨"1.0", "AA", "", "", "-80"⟩, ⟨"2.0", "AA", "", "", "-45"⟩,
            ⟨"3.0", "AA", "", "", "-90"⟩] : List Cand).filterMap
              (fun c => rssiVal c.rssi)).map Int.natAbs).min? = some e.rssi.natAbs :=
  ⟨by decide,
    merge_strongest_signal [⟨"1.0", "AA", "", "", "-80"⟩, ⟨"2.0", "AA", "", "", "-45"⟩,
        ⟨"3.0", "AA", "", "", "-90"⟩] [] [("AA", ⟨1, 3, "", "", -45⟩)] "AA"
      (by decide) (by decide) (by decide) (by decide) (by decide)⟩

/-- Witness for claim C6: a whitespace-only MAC is discarded and a non-empty
map is returned exactly unchanged. -/
theorem merge_empty_mac_discard_witness :
    normMac "  " = ""
    ∧ addDeviceRecord [("BB", ⟨1, 2, "n", "m", -7⟩)] "bogus" "  " "x" "y" "z" =
        some [("BB", ⟨1, 2, "n", "m", -7⟩)] :=
  ⟨by decide,
    merge_empty_mac_discard [("BB", ⟨1, 2, "n", "m", -7⟩)] "bogus" "  " "x" "y" "z" (by decide)⟩

/-- Witness for claim C7: merging the same candidate twice from the empty map
leaves the map as after one merge, with both time bounds the timestamp. -/
theorem merge_idempotent_witness :
    addDeviceRecord [] "1.5" "aa" "X" "Y" "-45" =
      some [("AA", ⟨mkRat 3 2, mkRat 3 2, "X", "Y", -45⟩)]
    ∧ addDeviceRecord [("AA", ⟨mkRat 3 2, mkRat 3 2, "X", "Y", -45⟩)] "1.5" "aa" "X" "Y" "-45" =
        some [("AA", ⟨mkRat 3 2, mkRat 3 2, "X", "Y", -45⟩)] :=
  ⟨by decide,
    (merge_idempotent [] [("AA", ⟨mkRat 3 2, mkRat 3 2, "X", "Y", -45⟩)]
      "1.5" "aa" "X" "Y" "-45" (by decide) (by decide) (by decide) (by decide)).1⟩

/-- Witness for claim C10: merging a new MAC leaves the record under the
other key untouched. -/
theorem merge_frame_witness :
    addDeviceRecord [("BB", ⟨1, 2, "n", "m", -7⟩)] "1.0" "aa" "X" "Y" "-45" =
      some [("BB", ⟨1, 2, "n", "m", -7⟩), ("AA", ⟨1, 1, "X", "Y", -45⟩)]
    ∧ findDev [("BB", ⟨1, 2, "n", "m", -7⟩), ("AA", ⟨1, 1, "X", "Y", -45⟩)] "BB" =
        findDev [("BB", ⟨1, 2, "n", "m", -7⟩)] "BB" :=
  ⟨by decide,
    (merge_frame [("BB", ⟨1, 2, "n", "m", -7⟩)]
        [("BB", ⟨1, 2, "n", "m", -7⟩), ("AA", ⟨1, 1, "X", "Y", -45⟩)]
        "1.0" "aa" "X" "Y" "-45" (by decide)).1 "BB" (by decide)⟩

end Btmon
